import Mathlib

/-!
Verification of the crowdloan-refund dashboard's core logic: the paged
chain-storage sync loop with staleness-aware caching, the unlock-day
estimate, the multi-key sorter, the per-row unlock concurrency guard,
the para-id alias table and the watch-list duplicate check.

All definitions are shallow embeddings of the TypeScript source:
number-valued chain data (block heights, para ids, balances) is modelled
with `Int`, JavaScript floating-point arithmetic on unlock-day estimates
with `ℚ`, and JavaScript `Date.now()` timestamps with `Int` milliseconds.
-/

namespace CrowdloanRefund

/-! ### Constants (src/src/utils/ahOpsUtils.ts) -/

def CACHE_DURATION_MS : Int := 60 * 1000

def PAGE_SIZE : Nat := 500

def UPDATE_BATCH_SIZE : Nat := 10

def RELAY_BLOCK_TIME_SECONDS : ℚ := 606 / 100

def SECONDS_PER_DAY : ℚ := 86400

def BLOCK_FETCH_INTERVAL_MS : Int := 12000

/-! ### calculateUnlockDays (src/src/utils/ahOpsUtils.ts, lines 25-35)

The source guards with `if (!currentRelayBlock) return null`, and in
JavaScript `!x` is true both for `null` and for `0`, so a current block
of `0` takes the null branch exactly like an absent block. -/

def calculateUnlockDays (unlockBlock : Int) (currentRelayBlock : Option Int) :
    Option ℚ :=
  match currentRelayBlock with
  | none => none
  | some c =>
    if c = 0 then none
    else
      let blocksRemaining : Int := unlockBlock - c
      if blocksRemaining ≤ 0 then some 0
      else some ((blocksRemaining : ℚ) * RELAY_BLOCK_TIME_SECONDS / SECONDS_PER_DAY)

/-- The Contributions page's own local copy of the estimate
(src/src/pages/CrowdloanContributions.tsx, lines 171-184), which uses
`6.6` seconds per block instead of the shared utility's `6.06`. -/
def contributionsCalculateUnlockDays (unlockBlock : Int)
    (currentRelayBlock : Option Int) : Option ℚ :=
  match currentRelayBlock with
  | none => none
  | some c =>
    if c = 0 then none
    else
      let blocksRemaining : Int := unlockBlock - c
      if blocksRemaining ≤ 0 then some 0
      else some ((blocksRemaining : ℚ) * (66 / 10) / 86400)

/-- The unlock-days cell of the Contributions table
(src/src/pages/CrowdloanContributions.tsx, lines 449-459):
null renders "-", exactly 0 renders "Unlocked", values in (0,1) render
"< 1", and larger values render `Math.round`. -/
def displayUnlockDays (unlockDays : Option ℚ) : String :=
  match unlockDays with
  | none => "-"
  | some d =>
    if d = 0 then "Unlocked"
    else if d < 1 then "< 1"
    else toString (round d)

/-! ### FetchState (src/src/utils/ahOpsUtils.ts, lines 37-40) -/

inductive FetchState where
  | idle : FetchState
  | fetching (currentCount : Nat) : FetchState
  | complete (totalCount : Nat) : FetchState
deriving DecidableEq, Repr

/-! ### The paged fetch loop (src/src/providers/PolkadotProvider.tsx,
`fetchLeaseReserves`, lines 435-519 of the concatenated provider file)

The remote storage map is modelled as the list of its records in
iteration order: an `entriesPaged` request with a cursor after `k`
consumed records returns `(store.drop k).take pageSize`.  The loop state
mirrors the local variables and the React state written by the loop.
`failAt = some k` means the `k`-th (0-based) `entriesPaged` request
throws; `none` means every read succeeds. -/

variable {α : Type}

structure LoopState (α : Type) where
  allFormattedEntries : List α
  itemsSinceLastUpdate : Nat
  pageCount : Nat
  /-- number of `entriesPaged` requests issued so far (a request that
  throws is still counted as issued). -/
  requests : Nat
  /-- current value of the `cachedEntries` React state. -/
  cached : List α
  /-- the intermediate `setCachedEntries` snapshots published by the loop. -/
  pubs : List (List α)
  fetchState : FetchState
deriving DecidableEq, Repr

/-- A request was issued (whether it returned or threw). -/
def bumpRequests (st : LoopState α) : LoopState α :=
  { st with requests := st.requests + 1 }

/-- `if (itemsSinceLastUpdate >= UPDATE_BATCH_SIZE) { setCachedEntries(...);
setFetchState(...); itemsSinceLastUpdate = 0; }`. -/
def publishStep (st : LoopState α) : LoopState α :=
  if UPDATE_BATCH_SIZE ≤ st.itemsSinceLastUpdate then
    { st with
      cached := st.allFormattedEntries
      pubs := st.pubs ++ [st.allFormattedEntries]
      fetchState := FetchState.fetching st.allFormattedEntries.length
      itemsSinceLastUpdate := 0 }
  else st

/-- Process one non-empty page: `pageCount++`, append the decoded batch to
the accumulator, bump the intra-page counter, then the publish check. -/
def appendPage (st : LoopState α) (page : List α) : LoopState α :=
  publishStep
    { st with
      pageCount := st.pageCount + 1
      allFormattedEntries := st.allFormattedEntries ++ page
      itemsSinceLastUpdate := st.itemsSinceLastUpdate + page.length }

def fetchLoop (pageSize : Nat) (failAt : Option Nat) :
    Nat → List α → LoopState α → LoopState α × Bool
  | 0, _, st => (st, false)
  | fuel + 1, remaining, st =>
    if failAt = some st.requests then (bumpRequests st, true)
    else
      -- `queryEntries` of the source is `remaining.take pageSize`.
      if (remaining.take pageSize).length = 0 then (bumpRequests st, false)
      else
        if (remaining.take pageSize).length < pageSize then
          (appendPage (bumpRequests st) (remaining.take pageSize), false)
        else
          fetchLoop pageSize failAt fuel (remaining.drop pageSize)
            (appendPage (bumpRequests st) (remaining.take pageSize))

/-- Observable outcome of one `fetchLeaseReserves` invocation. -/
structure FetchResult (α : Type) where
  cached : List α
  pubs : List (List α)
  fetchState : FetchState
  /-- whether `setError` was called with a message. -/
  error : Bool
  requests : Nat
  pageCount : Nat
  lastQueryTime : Int
deriving DecidableEq, Repr

def initialLoopState (cachedEntries : List α) : LoopState α :=
  { allFormattedEntries := []
    itemsSinceLastUpdate := 0
    pageCount := 0
    requests := 0
    cached := cachedEntries
    pubs := []
    fetchState := FetchState.fetching 0 }

/-- One invocation of `fetchLeaseReserves`: the cache-freshness gate, then
the paged loop in a `try`, with the `catch` setting the error and
resetting `FetchState` to idle, and the success path publishing the full
accumulator, the query time and `Complete`. -/
def fetchRun (cachedEntries : List α) (lastQueryTime now : Int)
    (fetchState0 : FetchState) (store : List α) (pageSize : Nat)
    (failAt : Option Nat) : FetchResult α :=
  if 0 < cachedEntries.length ∧ now - lastQueryTime < CACHE_DURATION_MS then
    { cached := cachedEntries, pubs := [], fetchState := fetchState0,
      error := false, requests := 0, pageCount := 0,
      lastQueryTime := lastQueryTime }
  else
    match fetchLoop pageSize failAt (store.length + 1) store
        (initialLoopState cachedEntries) with
    | (st, false) =>
      { cached := st.allFormattedEntries, pubs := st.pubs,
        fetchState := FetchState.complete st.allFormattedEntries.length,
        error := false, requests := st.requests, pageCount := st.pageCount,
        lastQueryTime := now }
    | (st, true) =>
      { cached := st.cached, pubs := st.pubs,
        fetchState := FetchState.idle, error := true,
        requests := st.requests, pageCount := st.pageCount,
        lastQueryTime := lastQueryTime }

/-! ### The sorter (src/src/providers/PolkadotProvider.tsx, sort effect,
lines 522-555 of the concatenated provider file)

Entries carry the four fields of `LeaseReserveEntry`; the numeric-string
fields (`Number(...)` comparisons in the source) are modelled as `Int`.
JavaScript `localeCompare` is modelled as code-unit lexicographic
comparison of the account strings. -/

structure LeaseReserveEntry where
  unlockBlockNumber : Int
  paraId : Int
  account : String
  balance : Int
deriving DecidableEq, Repr

def isSearched (searchAccounts : List String) (e : LeaseReserveEntry) : Bool :=
  searchAccounts.any fun addr => e.account.toLower == addr.toLower

def localeCompare (a b : String) : Int :=
  if a < b then -1 else if b < a then 1 else 0

def compareEntries (searchAccounts : List String)
    (a b : LeaseReserveEntry) : Int :=
  let aIsSearched := isSearched searchAccounts a
  let bIsSearched := isSearched searchAccounts b
  if aIsSearched && !bIsSearched then -1
  else if !aIsSearched && bIsSearched then 1
  else if a.paraId - b.paraId ≠ 0 then a.paraId - b.paraId
  else if a.unlockBlockNumber - b.unlockBlockNumber ≠ 0 then
    a.unlockBlockNumber - b.unlockBlockNumber
  else if localeCompare a.account b.account ≠ 0 then
    localeCompare a.account b.account
  else a.balance - b.balance

/-- `[...cachedEntries].sort(comparator)`: a comparison sort driven by
`compareEntries` (`le` holds when the comparator is ≤ 0). -/
def sortEntries (cachedEntries : List LeaseReserveEntry)
    (searchAccounts : List String) : List LeaseReserveEntry :=
  cachedEntries.mergeSort fun a b =>
    decide (compareEntries searchAccounts a b ≤ 0)

/-- Spec-side rank: watched entries (rank 0) before unwatched (rank 1). -/
def watchRank (searchAccounts : List String) (e : LeaseReserveEntry) : Nat :=
  if isSearched searchAccounts e then 0 else 1

/-- Modelled from the spec: the claimed display order — watched entries
first, ties broken in strict sequence by ascending paraId, then
unlockBlock, then account string, then balance. -/
def specLE (searchAccounts : List String) (a b : LeaseReserveEntry) : Prop :=
  watchRank searchAccounts a < watchRank searchAccounts b ∨
    (watchRank searchAccounts a = watchRank searchAccounts b ∧
      (a.paraId < b.paraId ∨ (a.paraId = b.paraId ∧
        (a.unlockBlockNumber < b.unlockBlockNumber ∨
          (a.unlockBlockNumber = b.unlockBlockNumber ∧
            (a.account < b.account ∨
              (a.account = b.account ∧ a.balance ≤ b.balance)))))))

/-- The five sort keys packed as a lexicographic product. -/
def sortKey (searchAccounts : List String) (e : LeaseReserveEntry) :
    ℕ ×ₗ (ℤ ×ₗ (ℤ ×ₗ (String ×ₗ ℤ))) :=
  toLex (watchRank searchAccounts e,
    toLex (e.paraId,
      toLex (e.unlockBlockNumber, toLex (e.account, e.balance))))

/-! ### The unlock concurrency guard (src/src/providers/PolkadotProvider.tsx,
`handleUnlock`/`getRowKey`, lines 212-213 and 337-433 of the concatenated
provider file) -/

def getRowKey (e : LeaseReserveEntry) : String :=
  toString e.unlockBlockNumber ++ "-" ++ toString e.paraId ++ "-" ++ e.account

structure UnlockState where
  /-- the `unlockingRows` Set of row keys with an in-flight submission. -/
  unlockingRows : List String
  /-- log of signer invocations (one row key per `signAndSend` started). -/
  signerInvocations : List String
deriving DecidableEq, Repr

/-- The synchronous head of `handleUnlock`: the guard check, the guard
insertion and the signer invocation. -/
def handleUnlockStart (st : UnlockState) (e : LeaseReserveEntry) :
    UnlockState :=
  let rowKey := getRowKey e
  if rowKey ∈ st.unlockingRows then st
  else
    { unlockingRows := rowKey :: st.unlockingRows
      signerInvocations := st.signerInvocations ++ [rowKey] }

/-- Terminal outcome of a submission for `e` (finalized callback or the
`catch` block): both delete the row key from `unlockingRows`. -/
def handleUnlockTerminal (st : UnlockState) (e : LeaseReserveEntry) :
    UnlockState :=
  { st with unlockingRows := st.unlockingRows.erase (getRowKey e) }

/-! ### Para-id aliasing (src/src/utils/versionManager.ts, lines 114-206 of
the concatenated utils file)

The `Record<string, ParaIdMapping>` built by `buildParaIdMap` is modelled
as an association list where a later assignment is consed on front, so
the first match during lookup is the last assignment. -/

structure ParaIdMapping where
  display : String
  tooltip : Option String
deriving DecidableEq, Repr

structure ParaIdSwapGroup where
  ids : List String
  tooltip : String
deriving DecidableEq, Repr

def PARA_ID_SWAP_GROUPS : List ParaIdSwapGroup :=
  [ { ids := ["2043", "3360"],
      tooltip := "NeuroWeb lease swap, see https://hackmd.io/@ePxWAFa1TbKm0U5Ym3IqgQ/Bk3XiAmlC" },
    { ids := ["2030", "3356"],
      tooltip := "Bifrost lease swap, see https://polkadot.polkassembly.io/referenda/524" },
    { ids := ["3417", "3340"],
      tooltip := "Para ID swap: 3417 ↔ 3340 (2025-07-18)" },
    { ids := ["3359", "2039"],
      tooltip := "Para ID swap: 3359 ↔ 2039 (2024-10-20)" },
    { ids := ["3378", "2019", "2052"],
      tooltip := "Para ID swaps: 3378 ↔ 2019 (2024-10-19), 2052 ↔ 2019 (2024-01-11)" },
    { ids := ["2008", "3375"],
      tooltip := "Para ID swap: 2008 ↔ 3375 (2024-08-08)" },
    { ids := ["2086", "3358"],
      tooltip := "Para ID swap: 2086 ↔ 3358 (2024-07-19)" },
    { ids := ["2046", "2003"],
      tooltip := "Para ID swap: 2046 ↔ 2003 (2024-04-19)" },
    { ids := ["2040", "2097"],
      tooltip := "Para ID swap: 2040 ↔ 2097 (2024-04-09)" },
    { ids := ["3334", "3369"],
      tooltip := "Para ID swap: 3334 ↔ 3369 (2024-03-20)" },
    { ids := ["3350", "2012", "3351", "2026"],
      tooltip := "Para ID swaps: 3350 ↔ 2012 (2024-01-16), 3351 ↔ 2012 & 2026 (2023-10-24)" },
    { ids := ["2031", "3353"],
      tooltip := "Para ID swap: 2031 ↔ 3353 (2023-11-05)" },
    { ids := ["3342", "2004"],
      tooltip := "Para ID swap: 3342 ↔ 2004 (2023-10-12)" } ]

def buildParaIdMap : List (String × ParaIdMapping) :=
  PARA_ID_SWAP_GROUPS.foldl
    (fun m group =>
      let display := String.intercalate " / " group.ids
      group.ids.foldl
        (fun m id =>
          (id, { display := display, tooltip := some group.tooltip }) :: m)
        m)
    []

def PARA_ID_MAP : List (String × ParaIdMapping) := buildParaIdMap

def formatParaId (paraId : String) : ParaIdMapping :=
  match PARA_ID_MAP.lookup paraId with
  | some mapping => mapping
  | none => { display := paraId, tooltip := none }

/-! ### addAccount (src/src/providers/PolkadotProvider.tsx, lines 295-313
of the concatenated provider file)

`normalizeAddress` wraps external SS58 crypto (decodeAddress /
encodeAddress), so it is passed in as an opaque function returning `none`
on malformed input. -/

inductive AddAccountResult where
  | noInput : AddAccountResult
  | invalid : AddAccountResult
  | duplicate : AddAccountResult
  | added (newList : List String) : AddAccountResult
deriving DecidableEq, Repr

/-- JavaScript `String.prototype.trim()`: drop whitespace from both ends. -/
def jsTrim (s : String) : String :=
  String.mk
    (((s.data.dropWhile Char.isWhitespace).reverse.dropWhile
        Char.isWhitespace).reverse)

def addAccount (normalizeAddress : String → Option String)
    (searchAccountsList : List String) (newAccountInput : String) :
    AddAccountResult :=
  let trimmed := jsTrim newAccountInput
  if trimmed = "" then AddAccountResult.noInput
  else
    match normalizeAddress trimmed with
    | none => AddAccountResult.invalid
    | some _ =>
      if trimmed ∈ searchAccountsList then AddAccountResult.duplicate
      else AddAccountResult.added (trimmed :: searchAccountsList)

/-! ## Lemmas about the fetch loop -/

@[simp] theorem bumpRequests_acc (st : LoopState α) :
    (bumpRequests st).allFormattedEntries = st.allFormattedEntries := rfl

@[simp] theorem bumpRequests_requests (st : LoopState α) :
    (bumpRequests st).requests = st.requests + 1 := rfl

@[simp] theorem bumpRequests_pageCount (st : LoopState α) :
    (bumpRequests st).pageCount = st.pageCount := rfl

@[simp] theorem bumpRequests_cached (st : LoopState α) :
    (bumpRequests st).cached = st.cached := rfl

@[simp] theorem bumpRequests_pubs (st : LoopState α) :
    (bumpRequests st).pubs = st.pubs := rfl

@[simp] theorem bumpRequests_items (st : LoopState α) :
    (bumpRequests st).itemsSinceLastUpdate = st.itemsSinceLastUpdate := rfl

@[simp] theorem publishStep_acc (st : LoopState α) :
    (publishStep st).allFormattedEntries = st.allFormattedEntries := by
  unfold publishStep; split <;> rfl

@[simp] theorem publishStep_requests (st : LoopState α) :
    (publishStep st).requests = st.requests := by
  unfold publishStep; split <;> rfl

@[simp] theorem publishStep_pageCount (st : LoopState α) :
    (publishStep st).pageCount = st.pageCount := by
  unfold publishStep; split <;> rfl

@[simp] theorem appendPage_acc (st : LoopState α) (page : List α) :
    (appendPage st page).allFormattedEntries
      = st.allFormattedEntries ++ page := by
  unfold appendPage; simp

@[simp] theorem appendPage_requests (st : LoopState α) (page : List α) :
    (appendPage st page).requests = st.requests := by
  unfold appendPage; simp

@[simp] theorem appendPage_pageCount (st : LoopState α) (page : List α) :
    (appendPage st page).pageCount = st.pageCount + 1 := by
  unfold appendPage; simp

/-- With every read succeeding and a positive page size, the loop consumes
the whole remainder, issues `⌊n/P⌋ + 1` requests and receives
`⌈n/P⌉` non-empty pages. -/
theorem fetchLoop_none_spec (P : Nat) (hP : 0 < P) (fuel : Nat) :
    ∀ (remaining : List α) (st : LoopState α), remaining.length < fuel →
      (fetchLoop P none fuel remaining st).2 = false ∧
      (fetchLoop P none fuel remaining st).1.allFormattedEntries
        = st.allFormattedEntries ++ remaining ∧
      (fetchLoop P none fuel remaining st).1.requests
        = st.requests + remaining.length / P + 1 ∧
      (fetchLoop P none fuel remaining st).1.pageCount
        = st.pageCount + (remaining.length + P - 1) / P := by
  induction fuel with
  | zero => intro remaining st h; omega
  | succ fuel ih =>
    intro remaining st h
    have hunfold : fetchLoop P none (fuel + 1) remaining st
        = if (remaining.take P).length = 0 then (bumpRequests st, false)
          else if (remaining.take P).length < P then
            (appendPage (bumpRequests st) (remaining.take P), false)
          else fetchLoop P none fuel (remaining.drop P)
            (appendPage (bumpRequests st) (remaining.take P)) := rfl
    by_cases h0 : (remaining.take P).length = 0
    · have hrem : remaining = [] := by
        rw [List.length_take] at h0
        exact List.eq_nil_of_length_eq_zero (by omega)
      subst hrem
      have hd1 : (P - 1) / P = 0 := Nat.div_eq_of_lt (by omega)
      rw [hunfold, if_pos h0]
      refine ⟨rfl, by simp, by simp, by simp [hd1]⟩
    · by_cases hlt : (remaining.take P).length < P
      · have hlen : remaining.length < P := by
          rw [List.length_take] at hlt; omega
        have htk : remaining.take P = remaining :=
          List.take_of_length_le (by omega)
        have hpos : 0 < remaining.length := by
          rw [htk] at h0; omega
        have hdiv0 : remaining.length / P = 0 := Nat.div_eq_of_lt hlen
        have hdiv1 : (remaining.length + P - 1) / P = 1 :=
          Nat.div_eq_of_lt_le (by omega) (by omega)
        rw [hunfold, if_neg h0, if_pos hlt]
        refine ⟨rfl, by simp [htk], ?_, ?_⟩
        · simp only [appendPage_requests, bumpRequests_requests]; omega
        · simp only [appendPage_pageCount, bumpRequests_pageCount]; omega
      · have hPle : P ≤ remaining.length := by
          rw [List.length_take] at hlt; omega
        have hstep := ih (remaining.drop P)
          (appendPage (bumpRequests st) (remaining.take P)) (by simp; omega)
        rw [hunfold, if_neg h0, if_neg hlt]
        rcases hstep with ⟨herr, hacc, hreq, hpc⟩
        refine ⟨herr, ?_, ?_, ?_⟩
        · rw [hacc]
          simp only [appendPage_acc, bumpRequests_acc, List.append_assoc,
            List.take_append_drop]
        · rw [hreq]
          simp only [appendPage_requests, bumpRequests_requests,
            List.length_drop]
          rw [Nat.div_eq_sub_div hP hPle]
          omega
        · rw [hpc]
          simp only [appendPage_pageCount, bumpRequests_pageCount,
            List.length_drop]
          have h1 : remaining.length - P + P - 1 = remaining.length - 1 := by
            omega
          have h2 : remaining.length + P - 1 = (remaining.length - 1) + P := by
            omega
          rw [h1, h2, Nat.add_div_right _ hP]
          omega

/-- The loop only ever adds requests. -/
theorem fetchLoop_requests_mono (P : Nat) (f : Option Nat) (fuel : Nat) :
    ∀ (remaining : List α) (st : LoopState α),
      st.requests ≤ (fetchLoop P f fuel remaining st).1.requests := by
  induction fuel with
  | zero => intro remaining st; exact le_refl _
  | succ fuel ih =>
    intro remaining st
    simp only [fetchLoop]
    split
    · simp
    · split
      · simp
      · split
        · simp
        · exact le_trans (by simp) (ih (remaining.drop P)
            (appendPage (bumpRequests st) (remaining.take P)))

/-- With fuel available, the loop issues at least one request. -/
theorem fetchLoop_requests_pos (P : Nat) (f : Option Nat) (fuel : Nat)
    (remaining : List α) (st : LoopState α) (h : 0 < fuel) :
    st.requests + 1 ≤ (fetchLoop P f fuel remaining st).1.requests := by
  obtain ⟨fuel, rfl⟩ : ∃ n, fuel = n + 1 := ⟨fuel - 1, by omega⟩
  simp only [fetchLoop]
  split
  · simp
  · split
    · simp
    · split
      · simp
      · exact le_trans (by simp) (fetchLoop_requests_mono P f fuel
          (remaining.drop P) (appendPage (bumpRequests st) (remaining.take P)))

/-- The `catch` block never touches `cachedEntries`: throughout the loop the
cached value is the last published snapshot (or the pre-run cache `init` if
nothing was published yet). -/
theorem fetchLoop_cached_getLastD (P : Nat) (f : Option Nat) (fuel : Nat)
    (init : List α) :
    ∀ (remaining : List α) (st : LoopState α),
      st.cached = st.pubs.getLastD init →
      (fetchLoop P f fuel remaining st).1.cached
        = (fetchLoop P f fuel remaining st).1.pubs.getLastD init := by
  induction fuel with
  | zero => intro remaining st h; exact h
  | succ fuel ih =>
    intro remaining st h
    have hstep : ∀ page : List α,
        (appendPage (bumpRequests st) page).cached
          = (appendPage (bumpRequests st) page).pubs.getLastD init := by
      intro page
      unfold bumpRequests appendPage publishStep
      split
      · simp [List.getLastD_concat]
      · simpa using h
    simp only [fetchLoop]
    split
    · simpa using h
    · split
      · simpa using h
      · split
        · exact hstep _
        · exact ih (remaining.drop P) _ (hstep _)

/-- A run with an injected failure at request index `k` either hits the
failure (erroring with exactly `k + 1` issued requests) or never reaches
request `k` and behaves exactly like the failure-free run. -/
theorem fetchLoop_fail_or_eq (P : Nat) (k : Nat) (fuel : Nat) :
    ∀ (remaining : List α) (st : LoopState α), st.requests ≤ k →
      ((fetchLoop P (some k) fuel remaining st).2 = true ∧
        (fetchLoop P (some k) fuel remaining st).1.requests = k + 1) ∨
      (fetchLoop P (some k) fuel remaining st
          = fetchLoop P none fuel remaining st ∧
        (fetchLoop P none fuel remaining st).1.requests ≤ k) := by
  induction fuel with
  | zero =>
    intro remaining st h
    right
    exact ⟨rfl, h⟩
  | succ fuel ih =>
    intro remaining st hk
    have hu1 : fetchLoop P (some k) (fuel + 1) remaining st
        = if (some k : Option Nat) = some st.requests then
            (bumpRequests st, true)
          else if (remaining.take P).length = 0 then (bumpRequests st, false)
          else if (remaining.take P).length < P then
            (appendPage (bumpRequests st) (remaining.take P), false)
          else fetchLoop P (some k) fuel (remaining.drop P)
            (appendPage (bumpRequests st) (remaining.take P)) := rfl
    have hu2 : fetchLoop P none (fuel + 1) remaining st
        = if (remaining.take P).length = 0 then (bumpRequests st, false)
          else if (remaining.take P).length < P then
            (appendPage (bumpRequests st) (remaining.take P), false)
          else fetchLoop P none fuel (remaining.drop P)
            (appendPage (bumpRequests st) (remaining.take P)) := rfl
    by_cases hfail : k = st.requests
    · left
      rw [hu1, if_pos (by rw [hfail])]
      exact ⟨rfl, by simp [hfail]⟩
    · have hlt : st.requests < k := by omega
      rw [hu1, if_neg (show ¬((some k : Option Nat) = some st.requests) by
        simpa using hfail), hu2]
      by_cases h0 : (remaining.take P).length = 0
      · rw [if_pos h0, if_pos h0]
        right
        exact ⟨rfl, by simp; omega⟩
      · rw [if_neg h0, if_neg h0]
        by_cases hplt : (remaining.take P).length < P
        · rw [if_pos hplt, if_pos hplt]
          right
          exact ⟨rfl, by simp; omega⟩
        · rw [if_neg hplt, if_neg hplt]
          exact ih (remaining.drop P)
            (appendPage (bumpRequests st) (remaining.take P)) (by simp; omega)

/-- Invariant tying the intra-page counter to the published snapshots:
the counter counts exactly the records accumulated since the last
publication, each snapshot is at least `UPDATE_BATCH_SIZE` long and
consecutive snapshots grow by at least `UPDATE_BATCH_SIZE`, and every
snapshot is the accumulator prefix it was published as. -/
def PubsInv (st : LoopState α) : Prop :=
  st.itemsSinceLastUpdate + (st.pubs.getLastD []).length
      = st.allFormattedEntries.length ∧
  List.Chain' (fun p q => p.length + UPDATE_BATCH_SIZE ≤ q.length) st.pubs ∧
  (∀ p ∈ st.pubs, UPDATE_BATCH_SIZE ≤ p.length) ∧
  (∀ p ∈ st.pubs, p = st.allFormattedEntries.take p.length)

theorem pubsInv_appendPage (st : LoopState α) (page : List α)
    (h : PubsInv st) : PubsInv (appendPage st page) := by
  obtain ⟨h1, h2, h3, h4⟩ := h
  have hlenle : ∀ p ∈ st.pubs, p.length ≤ st.allFormattedEntries.length := by
    intro p hp
    have := congrArg List.length (h4 p hp)
    rw [List.length_take] at this
    omega
  have htake : ∀ p ∈ st.pubs,
      p = (st.allFormattedEntries ++ page).take p.length := by
    intro p hp
    rw [List.take_append_of_le_length (hlenle p hp)]
    exact h4 p hp
  unfold appendPage publishStep
  by_cases hpub :
      UPDATE_BATCH_SIZE ≤ st.itemsSinceLastUpdate + page.length
  · rw [if_pos (by simpa using hpub)]
    refine ⟨?_, ?_, ?_, ?_⟩
    · simp [List.getLastD_concat]
    · simp only []
      rw [List.chain'_append]
      refine ⟨h2, List.chain'_singleton _, ?_⟩
      intro x hx y hy
      simp only [List.head?_cons, Option.mem_def, Option.some.injEq] at hy
      subst hy
      have hxmem : x ∈ st.pubs := List.mem_of_mem_getLast? hx
      have hxlast : (st.pubs.getLastD []).length = x.length := by
        rw [List.getLastD_eq_getLast?, hx]
        rfl
      simp only [List.length_append]
      omega
    · intro p hp
      rcases List.mem_append.mp hp with hp | hp
      · exact h3 p hp
      · simp only [List.mem_singleton] at hp
        subst hp
        simp only [List.length_append]
        omega
    · intro p hp
      rcases List.mem_append.mp hp with hp | hp
      · exact htake p hp
      · simp only [List.mem_singleton] at hp
        subst hp
        simp
  · rw [if_neg (by simpa using hpub)]
    refine ⟨?_, h2, h3, ?_⟩
    · simp only [List.length_append]
      omega
    · exact htake

theorem fetchLoop_pubsInv (P : Nat) (f : Option Nat) (fuel : Nat) :
    ∀ (remaining : List α) (st : LoopState α), PubsInv st →
      PubsInv (fetchLoop P f fuel remaining st).1 := by
  induction fuel with
  | zero => intro remaining st h; exact h
  | succ fuel ih =>
    intro remaining st h
    have hbump : PubsInv (bumpRequests st) := h
    simp only [fetchLoop]
    split
    · exact hbump
    · split
      · exact hbump
      · split
        · exact pubsInv_appendPage _ _ hbump
        · exact ih (remaining.drop P) _ (pubsInv_appendPage _ _ hbump)

/-! ## Claim C1: totals of one PagedSync run -/

/-- C1 (counterexample): with one record and page size one, the run issues
2 page requests, not `⌈1/1⌉ = 1`: after a full page the loop always asks
for one more page and only stops on the short (here empty) reply. -/
theorem pagedSync_requests_ne_ceil :
    (fetchRun ([] : List Nat) 0 1 FetchState.idle [7] 1 none).requests = 2 ∧
    (1 + 1 - 1) / 1 = 1 ∧
    (fetchRun ([] : List Nat) 0 1 FetchState.idle [7] 1 none).requests
      ≠ (1 + 1 - 1) / 1 := by
  decide

/-- C1 (amended): for every store of `N` records and page size `P > 0`, a
PagedSync run with all reads succeeding accumulates exactly `N` decoded
entries, issues exactly `⌊N/P⌋ + 1` page requests (of which the non-empty
pages number `⌈N/P⌉`; one extra trailing empty request occurs exactly when
`P` divides `N`), and finishes with `FetchState = Complete N` and no
error. -/
theorem pagedSync_total_counts (store : List α) (P : Nat) (hP : 0 < P)
    (lqt now : Int) (fs : FetchState) :
    (fetchRun ([] : List α) lqt now fs store P none).error = false ∧
    (fetchRun ([] : List α) lqt now fs store P none).cached = store ∧
    (fetchRun ([] : List α) lqt now fs store P none).requests
      = store.length / P + 1 ∧
    (fetchRun ([] : List α) lqt now fs store P none).pageCount
      = (store.length + P - 1) / P ∧
    (fetchRun ([] : List α) lqt now fs store P none).fetchState
      = FetchState.complete store.length := by
  have hmiss : ¬(0 < ([] : List α).length ∧ now - lqt < CACHE_DURATION_MS) :=
    by simp
  have hspec := fetchLoop_none_spec P hP (store.length + 1) store
    (initialLoopState []) (by omega)
  rcases hloop : fetchLoop P none (store.length + 1) store
      (initialLoopState ([] : List α)) with ⟨st, b⟩
  rw [hloop] at hspec
  obtain ⟨hb, hacc, hreq, hpc⟩ := hspec
  simp only at hb hacc hreq hpc
  subst hb
  simp only [initialLoopState, List.nil_append] at hacc hreq hpc
  unfold fetchRun
  rw [if_neg hmiss, hloop]
  exact ⟨rfl, hacc, by simpa using hreq, by simpa using hpc,
    by simp [hacc]⟩

/-- C1 (witness): 1200 records at page size 500 give 3 requests
(pages of 500, 500, 200) and `Complete 1200`. -/
theorem pagedSync_total_counts_witness :
    (fetchRun ([] : List Nat) 0 1 FetchState.idle (List.range 1200) 500
        none).requests = 1200 / 500 + 1 ∧
    (fetchRun ([] : List Nat) 0 1 FetchState.idle (List.range 1200) 500
        none).fetchState = FetchState.complete 1200 := by
  have h := pagedSync_total_counts (List.range 1200) 500 (by norm_num)
    0 1 FetchState.idle
  exact ⟨by simpa using h.2.2.1, by simpa using h.2.2.2.2⟩

/-! ## Claim C2: intermediate publications -/

/-- C2 (counterexample): a 20-record store served as a single page of 20
yields exactly one intermediate publication, of all 20 records — no
publication happens when the accumulator passes 10 records, because the
batch check runs once per page, not per record. -/
theorem pagedSync_batch_counterexample :
    ((fetchRun ([] : List Nat) 0 1 FetchState.idle (List.range 20) 20
        none).pubs.map List.length) = [20] ∧
    ¬ (10 ∈ (fetchRun ([] : List Nat) 0 1 FetchState.idle (List.range 20) 20
        none).pubs.map List.length) := by
  decide

/-- C2 (amended): publications occur only at page boundaries — after
appending a page, the accumulator is published exactly when at least
`UPDATE_BATCH_SIZE` (10) records have accumulated since the last
publication, and the counter then resets.  Consequently every published
snapshot is the current store prefix, is at least 10 records long, and
consecutive snapshots grow by at least 10 records. -/
theorem pagedSync_batch_publications (store : List α) (P : Nat) (hP : 0 < P)
    (lqt now : Int) (fs : FetchState) :
    List.Chain' (fun p q => p.length + UPDATE_BATCH_SIZE ≤ q.length)
      (fetchRun ([] : List α) lqt now fs store P none).pubs ∧
    (∀ p ∈ (fetchRun ([] : List α) lqt now fs store P none).pubs,
      UPDATE_BATCH_SIZE ≤ p.length) ∧
    (∀ p ∈ (fetchRun ([] : List α) lqt now fs store P none).pubs,
      p = store.take p.length) := by
  have hmiss : ¬(0 < ([] : List α).length ∧ now - lqt < CACHE_DURATION_MS) :=
    by simp
  have hinv0 : PubsInv (initialLoopState ([] : List α)) := by
    refine ⟨rfl, List.chain'_nil, ?_, ?_⟩ <;> intro p hp <;> cases hp
  have hinv := fetchLoop_pubsInv P none (store.length + 1) store
    (initialLoopState []) hinv0
  have hspec := fetchLoop_none_spec P hP (store.length + 1) store
    (initialLoopState []) (by omega)
  rcases hloop : fetchLoop P none (store.length + 1) store
      (initialLoopState ([] : List α)) with ⟨st, b⟩
  rw [hloop] at hinv hspec
  obtain ⟨hb, hacc, -, -⟩ := hspec
  simp only at hb
  subst hb
  simp only [initialLoopState, List.nil_append] at hacc
  obtain ⟨-, hchain, hlen, htake⟩ := hinv
  unfold fetchRun
  rw [if_neg hmiss, hloop]
  refine ⟨hchain, hlen, ?_⟩
  intro p hp
  rw [← hacc]
  exact htake p hp

/-- C2 (witness): a 25-record store at page size 7 publishes snapshots of
14 and 25 records, each a store prefix growing by at least 10. -/
theorem pagedSync_batch_witness :
    List.Chain' (fun p q => p.length + UPDATE_BATCH_SIZE ≤ q.length)
      (fetchRun ([] : List Nat) 0 1 FetchState.idle (List.range 25) 7
        none).pubs ∧
    ∀ p ∈ (fetchRun ([] : List Nat) 0 1 FetchState.idle (List.range 25) 7
        none).pubs, p = (List.range 25).take p.length := by
  have h := pagedSync_batch_publications (List.range 25) 7 (by norm_num)
    0 1 FetchState.idle
  exact ⟨h.1, h.2.2⟩

/-! ## Claim C3: ResultCache freshness gate -/

/-- C3: a read reuses the cached result set — issuing no page requests and
leaving cache, fetch state and timestamp untouched — exactly when the
cached entry list is non-empty and less than `CACHE_DURATION_MS` (60000
ms) old; concretely, a read 10 s after a sync at time 0 returns the
cached set unchanged, while a read 61 s after starts a fresh sync that
replaces the cache and completes. -/
theorem resultCache_policy :
    (∀ (β : Type) (init store : List β) (lqt now : Int) (fs : FetchState)
        (P : Nat) (f : Option Nat),
      ((fetchRun init lqt now fs store P f).requests = 0 ∧
        (fetchRun init lqt now fs store P f).cached = init ∧
        (fetchRun init lqt now fs store P f).fetchState = fs ∧
        (fetchRun init lqt now fs store P f).lastQueryTime = lqt ∧
        (fetchRun init lqt now fs store P f).error = false)
        ↔ (init ≠ [] ∧ now - lqt < CACHE_DURATION_MS)) ∧
    (fetchRun [1, 2, 3] 0 10000 (FetchState.complete 3) [4, 5, 6, 7] 2
        none).requests = 0 ∧
    (fetchRun [1, 2, 3] 0 10000 (FetchState.complete 3) [4, 5, 6, 7] 2
        none).cached = [1, 2, 3] ∧
    (fetchRun [1, 2, 3] 0 61000 (FetchState.complete 3) [4, 5, 6, 7] 2
        none).requests = 3 ∧
    (fetchRun [1, 2, 3] 0 61000 (FetchState.complete 3) [4, 5, 6, 7] 2
        none).cached = [4, 5, 6, 7] ∧
    (fetchRun [1, 2, 3] 0 61000 (FetchState.complete 3) [4, 5, 6, 7] 2
        none).fetchState = FetchState.complete 4 := by
  refine ⟨?_, by decide, by decide, by decide, by decide, by decide⟩
  intro β init store lqt now fs P f
  constructor
  · rintro ⟨hreq, -, -, -, -⟩
    by_contra hmiss
    have hmiss' : ¬(0 < init.length ∧ now - lqt < CACHE_DURATION_MS) := by
      intro ⟨h1, h2⟩
      exact hmiss ⟨by simpa [← List.length_pos] using h1, h2⟩
    have hpos := fetchLoop_requests_pos P f (store.length + 1) store
      (initialLoopState init) (by omega)
    rcases hloop : fetchLoop P f (store.length + 1) store
        (initialLoopState init) with ⟨st, b⟩
    rw [hloop] at hpos
    unfold fetchRun at hreq
    rw [if_neg hmiss', hloop] at hreq
    simp only [initialLoopState] at hpos
    cases b <;> simp only at hreq <;> omega
  · rintro ⟨hne, hfresh⟩
    have hhit : 0 < init.length ∧ now - lqt < CACHE_DURATION_MS :=
      ⟨List.length_pos.mpr hne, hfresh⟩
    unfold fetchRun
    rw [if_pos hhit]
    exact ⟨rfl, rfl, rfl, rfl, rfl⟩

/-! ## Claim C4: failure mid-sync -/

/-- C4: if the `k`-th page read of a run that would otherwise issue more
than `k` requests throws, the run aborts right there (`k + 1` requests
issued), surfaces the error, resets `FetchState` to `Idle` (never
`Complete`), leaves the cached entries at the last published snapshot
(the pre-run cache if nothing was published yet) and does not update the
query time. -/
theorem syncFailure_aborts_to_idle (init store : List α) (lqt now : Int)
    (fs : FetchState) (P k : Nat)
    (hk : k < (fetchRun init lqt now fs store P none).requests) :
    (fetchRun init lqt now fs store P (some k)).error = true ∧
    (fetchRun init lqt now fs store P (some k)).fetchState
      = FetchState.idle ∧
    (fetchRun init lqt now fs store P (some k)).requests = k + 1 ∧
    (fetchRun init lqt now fs store P (some k)).cached
      = (fetchRun init lqt now fs store P (some k)).pubs.getLastD init ∧
    (fetchRun init lqt now fs store P (some k)).lastQueryTime = lqt := by
  by_cases hhit : 0 < init.length ∧ now - lqt < CACHE_DURATION_MS
  · exfalso
    unfold fetchRun at hk
    rw [if_pos hhit] at hk
    simp at hk
  · have hcached := fetchLoop_cached_getLastD P (some k) (store.length + 1)
      init store (initialLoopState init) rfl
    rcases fetchLoop_fail_or_eq P k (store.length + 1) store
        (initialLoopState init) (by simp [initialLoopState]) with
      ⟨herr, hreq⟩ | ⟨-, hle⟩
    · rcases hloop : fetchLoop P (some k) (store.length + 1) store
          (initialLoopState init) with ⟨st, b⟩
      rw [hloop] at herr hreq hcached
      simp only at herr hreq hcached
      subst herr
      unfold fetchRun
      rw [if_neg hhit, hloop]
      exact ⟨rfl, rfl, hreq, hcached, rfl⟩
    · exfalso
      rcases hloop : fetchLoop P none (store.length + 1) store
          (initialLoopState init) with ⟨st, b⟩
      rw [hloop] at hle
      unfold fetchRun at hk
      rw [if_neg hhit, hloop] at hk
      simp only at hle
      cases b <;> simp only at hk <;> omega

/-- C4 (witness): store `[10, 20, 30]` at page size 1 would need 4
requests; failing the second request aborts with the error surfaced,
`FetchState` idle, 2 issued requests and the pre-run cache `[9]` kept. -/
theorem syncFailure_witness :
    (fetchRun [9] 0 61000 FetchState.idle [10, 20, 30] 1 (some 1)).error
      = true ∧
    (fetchRun [9] 0 61000 FetchState.idle [10, 20, 30] 1
        (some 1)).fetchState = FetchState.idle ∧
    (fetchRun [9] 0 61000 FetchState.idle [10, 20, 30] 1 (some 1)).requests
      = 2 := by
  have h := syncFailure_aborts_to_idle [9] [10, 20, 30] 0 61000
    FetchState.idle 1 1 (by decide)
  exact ⟨h.1, h.2.1, h.2.2.1⟩

/-! ## Claim C5: calculateUnlockDays null/zero behaviour -/

/-- C5 (counterexample): `calculateUnlockDays` returns null for the
non-null current block `0`, because the JavaScript guard
`!currentRelayBlock` treats `0` as falsy — so "null exactly when
currentBlock is null" fails, as does "exactly 0 whenever
unlockBlock ≤ currentBlock" at `currentBlock = 0`. -/
theorem calculateUnlockDays_zero_counterexample :
    calculateUnlockDays 10 (some 0) = none ∧
    (some (0 : Int)) ≠ (none : Option Int) := by
  constructor
  · rfl
  · simp

/-- C5 (amended): `calculateUnlockDays` returns null exactly when the
current block is null or `0` (JavaScript falsy); whenever it returns a
value, that value is never negative, and it is exactly `0` whenever
`unlockBlock ≤ currentBlock` for any non-null, non-zero current block. -/
theorem calculateUnlockDays_amended (u : Int) (c : Option Int) :
    (calculateUnlockDays u c = none ↔ c = none ∨ c = some 0) ∧
    (∀ q, calculateUnlockDays u c = some q → 0 ≤ q) ∧
    (∀ cv, c = some cv → cv ≠ 0 → u ≤ cv →
      calculateUnlockDays u c = some 0) := by
  refine ⟨?_, ?_, ?_⟩
  · match c with
    | none => simp [calculateUnlockDays]
    | some cv =>
      by_cases h0 : cv = 0
      · subst h0; simp [calculateUnlockDays]
      · simp only [calculateUnlockDays, if_neg h0]
        constructor
        · intro h
          split at h <;> simp_all
        · rintro (h | h) <;> simp_all
  · intro q hq
    match c with
    | none => simp [calculateUnlockDays] at hq
    | some cv =>
      by_cases h0 : cv = 0
      · subst h0; simp [calculateUnlockDays] at hq
      · simp only [calculateUnlockDays, if_neg h0] at hq
        by_cases hle : u - cv ≤ 0
        · rw [if_pos hle] at hq
          simp only [Option.some.injEq] at hq
          exact hq ▸ le_refl (0 : ℚ)
        · rw [if_neg hle] at hq
          have hpos : (0 : ℚ) < ((u - cv : Int) : ℚ) := by
            exact_mod_cast by omega
          have : (0 : ℚ) <
              ((u - cv : Int) : ℚ) * RELAY_BLOCK_TIME_SECONDS
                / SECONDS_PER_DAY := by
            unfold RELAY_BLOCK_TIME_SECONDS SECONDS_PER_DAY
            positivity
          simp only [Option.some.injEq] at hq
          rw [hq] at this
          exact le_of_lt this
  · rintro cv rfl h0 hle
    simp only [calculateUnlockDays, if_neg h0]
    rw [if_pos (by omega)]

/-- C5 (witness): with current block 7 and unlock block 5 the estimate is
exactly 0 ("actionable now"). -/
theorem calculateUnlockDays_amended_witness :
    calculateUnlockDays 5 (some 7) = some 0 :=
  (calculateUnlockDays_amended 5 (some 7)).2.2 7 rfl (by decide) (by decide)

/-! ## Claim C6: 6.06-seconds-per-block estimate -/

/-- C6 (counterexample): the Contributions view computes its estimate with
its own local 6.6-seconds-per-block copy, so at
`unlockBlock = 1000, currentBlock = 994` it yields `6 * 6.6 / 86400 =
11/24000`, not `6 * 6.06 / 86400 = 101/240000` — the claimed formula does
not hold in every view. -/
theorem unlockDays_constant_counterexample :
    contributionsCalculateUnlockDays 1000 (some 994) = some (11 / 24000) ∧
    calculateUnlockDays 1000 (some 994) = some (101 / 240000) ∧
    (11 / 24000 : ℚ) ≠ 101 / 240000 := by
  refine ⟨?_, ?_, by norm_num⟩
  · norm_num [contributionsCalculateUnlockDays]
  · norm_num [calculateUnlockDays, RELAY_BLOCK_TIME_SECONDS,
      SECONDS_PER_DAY]

/-- C6 (amended): the shared-utility views (Lease Reserves, Crowdloan
Reserves) compute `remaining * 6.06 / 86400` for positive remainders,
while the Contributions view computes `remaining * 6.6 / 86400`; at
`unlockBlock = 1000, currentBlock = 994` both estimates lie in `(0, 1)`
and display as "< 1", not "0". -/
theorem unlockDays_estimate_amended :
    (∀ u c : Int, c ≠ 0 → 0 < u - c →
      calculateUnlockDays u (some c)
          = some (((u : ℚ) - (c : ℚ)) * RELAY_BLOCK_TIME_SECONDS
            / SECONDS_PER_DAY) ∧
      contributionsCalculateUnlockDays u (some c)
          = some (((u : ℚ) - (c : ℚ)) * (66 / 10) / 86400)) ∧
    calculateUnlockDays 1000 (some 994) = some (101 / 240000) ∧
    displayUnlockDays (calculateUnlockDays 1000 (some 994)) = "< 1" ∧
    displayUnlockDays (contributionsCalculateUnlockDays 1000 (some 994))
      = "< 1" ∧
    "< 1" ≠ "0" := by
  refine ⟨?_, ?_, ?_, ?_, by decide⟩
  · intro u c h0 hpos
    constructor
    · simp only [calculateUnlockDays, if_neg h0, if_neg (by omega : ¬u - c ≤ 0)]
      congr 1
      push_cast
      ring
    · simp only [contributionsCalculateUnlockDays, if_neg h0,
        if_neg (by omega : ¬u - c ≤ 0)]
      congr 1
      push_cast
      ring
  · norm_num [calculateUnlockDays, RELAY_BLOCK_TIME_SECONDS, SECONDS_PER_DAY]
  · rw [show calculateUnlockDays 1000 (some 994) = some (101 / 240000) by
      norm_num [calculateUnlockDays, RELAY_BLOCK_TIME_SECONDS,
        SECONDS_PER_DAY]]
    norm_num [displayUnlockDays]
  · rw [show contributionsCalculateUnlockDays 1000 (some 994)
        = some (11 / 24000) by norm_num [contributionsCalculateUnlockDays]]
    norm_num [displayUnlockDays]

/-- C6 (witness): the amended formula applied at the spec's scenario. -/
theorem unlockDays_estimate_witness :
    calculateUnlockDays 1000 (some 994)
      = some (((1000 : ℚ) - (994 : ℚ)) * RELAY_BLOCK_TIME_SECONDS
        / SECONDS_PER_DAY) :=
  (unlockDays_estimate_amended.1 1000 994 (by decide) (by decide)).1

/-! ## Lemmas about the sorter -/

theorem localeCompare_eq_zero_iff (a b : String) :
    localeCompare a b = 0 ↔ a = b := by
  unfold localeCompare
  rcases lt_trichotomy a b with h | h | h
  · rw [if_pos h]
    constructor
    · intro hc; exact absurd hc (by norm_num)
    · intro hab; exact absurd hab (ne_of_lt h)
  · subst h
    rw [if_neg (lt_irrefl a), if_neg (lt_irrefl a)]
    simp
  · rw [if_neg (lt_asymm h), if_pos h]
    constructor
    · intro hc; exact absurd hc (by norm_num)
    · intro hab; exact absurd hab (ne_of_gt h)

theorem localeCompare_le_iff (a b : String) :
    localeCompare a b ≤ 0 ↔ a ≤ b := by
  unfold localeCompare
  rcases lt_trichotomy a b with h | h | h
  · rw [if_pos h]
    simp [le_of_lt h]
  · subst h
    rw [if_neg (lt_irrefl a), if_neg (lt_irrefl a)]
    simp
  · rw [if_neg (lt_asymm h), if_pos h]
    simp [not_le_of_gt h]

/-- The tie-break chain of the comparator agrees with the nested
lexicographic order on (paraId, unlockBlock, account, balance). -/
theorem compareChain_le_iff (a b : LeaseReserveEntry) :
    ((if a.paraId - b.paraId ≠ 0 then a.paraId - b.paraId
      else if a.unlockBlockNumber - b.unlockBlockNumber ≠ 0 then
        a.unlockBlockNumber - b.unlockBlockNumber
      else if localeCompare a.account b.account ≠ 0 then
        localeCompare a.account b.account
      else a.balance - b.balance) ≤ 0)
    ↔ (a.paraId < b.paraId ∨ (a.paraId = b.paraId ∧
        (a.unlockBlockNumber < b.unlockBlockNumber ∨
          (a.unlockBlockNumber = b.unlockBlockNumber ∧
            (a.account < b.account ∨
              (a.account = b.account ∧ a.balance ≤ b.balance)))))) := by
  by_cases h1 : a.paraId - b.paraId ≠ 0
  · rw [if_pos h1]
    constructor
    · intro h; left; omega
    · rintro (h | ⟨heq, -⟩) <;> omega
  · rw [if_neg h1]
    push_neg at h1
    have hpeq : a.paraId = b.paraId := by omega
    by_cases h2 : a.unlockBlockNumber - b.unlockBlockNumber ≠ 0
    · rw [if_pos h2]
      constructor
      · intro h; exact Or.inr ⟨hpeq, Or.inl (by omega)⟩
      · rintro (h | ⟨-, h | ⟨heq, -⟩⟩) <;> omega
    · rw [if_neg h2]
      push_neg at h2
      have hbeq : a.unlockBlockNumber = b.unlockBlockNumber := by omega
      by_cases h3 : localeCompare a.account b.account ≠ 0
      · rw [if_pos h3]
        have hne : a.account ≠ b.account := fun he =>
          h3 ((localeCompare_eq_zero_iff _ _).mpr he)
        constructor
        · intro h
          exact Or.inr ⟨hpeq, Or.inr ⟨hbeq, Or.inl
            (lt_of_le_of_ne ((localeCompare_le_iff _ _).mp h) hne)⟩⟩
        · rintro (h | ⟨-, h | ⟨-, h | ⟨heq, -⟩⟩⟩)
          · omega
          · omega
          · exact (localeCompare_le_iff _ _).mpr (le_of_lt h)
          · exact absurd heq hne
      · rw [if_neg h3]
        push_neg at h3
        have haeq : a.account = b.account :=
          (localeCompare_eq_zero_iff _ _).mp h3
        constructor
        · intro h
          exact Or.inr ⟨hpeq, Or.inr ⟨hbeq, Or.inr ⟨haeq, by omega⟩⟩⟩
        · rintro (h | ⟨-, h | ⟨-, h | ⟨-, h⟩⟩⟩)
          · omega
          · omega
          · exact absurd h (by rw [haeq]; exact lt_irrefl _)
          · omega

/-- The source comparator is non-positive exactly when the claimed
priority order holds. -/
theorem compareEntries_le_iff (sa : List String) (a b : LeaseReserveEntry) :
    compareEntries sa a b ≤ 0 ↔ specLE sa a b := by
  have hchain := compareChain_le_iff a b
  cases hA : isSearched sa a <;> cases hB : isSearched sa b <;>
    simp only [compareEntries, specLE, watchRank, hA, hB, Bool.not_true,
      Bool.not_false, Bool.and_true, Bool.and_false, Bool.true_and,
      Bool.false_and, if_true, if_false, Bool.false_eq_true, lt_irrefl]
  · rw [hchain]
    norm_num
  · norm_num
  · norm_num
  · rw [hchain]
    norm_num

theorem specLE_iff_sortKey (sa : List String) (a b : LeaseReserveEntry) :
    specLE sa a b ↔ sortKey sa a ≤ sortKey sa b := by
  simp only [sortKey, Prod.Lex.le_iff, specLE]

theorem specLE_total (sa : List String) (a b : LeaseReserveEntry) :
    specLE sa a b ∨ specLE sa b a := by
  rw [specLE_iff_sortKey, specLE_iff_sortKey]
  exact le_total _ _

theorem specLE_trans (sa : List String) (a b c : LeaseReserveEntry)
    (h1 : specLE sa a b) (h2 : specLE sa b c) : specLE sa a c := by
  rw [specLE_iff_sortKey] at h1 h2 ⊢
  exact le_trans h1 h2

/-! ## Claim C7: the sorter's order -/

/-- C7: `sortEntries` returns a permutation of its input ordered by the
claimed strict priority sequence (`specLE`): watched accounts
(case-insensitive match against a normalized watch-list member) first,
then ascending numeric paraId, ascending numeric unlockBlock, ascending
lexicographic account, ascending numeric balance; `specLE` is total, so
the order is a deterministic total preorder, and in the output no
unwatched entry ever precedes a watched one. -/
theorem sorter_total_order (entries : List LeaseReserveEntry)
    (sa : List String) :
    List.Perm (sortEntries entries sa) entries ∧
    List.Pairwise (specLE sa) (sortEntries entries sa) ∧
    (∀ a b, specLE sa a b ∨ specLE sa b a) ∧
    List.Pairwise
      (fun x y => isSearched sa y = true → isSearched sa x = true)
      (sortEntries entries sa) := by
  have htrans : ∀ a b c : LeaseReserveEntry,
      decide (compareEntries sa a b ≤ 0) = true →
      decide (compareEntries sa b c ≤ 0) = true →
      decide (compareEntries sa a c ≤ 0) = true := by
    intro a b c h1 h2
    rw [decide_eq_true_iff] at h1 h2 ⊢
    rw [compareEntries_le_iff] at h1 h2 ⊢
    exact specLE_trans sa a b c h1 h2
  have htotal : ∀ a b : LeaseReserveEntry,
      (decide (compareEntries sa a b ≤ 0)
        || decide (compareEntries sa b a ≤ 0)) = true := by
    intro a b
    rcases specLE_total sa a b with h | h
    · simp [decide_eq_true_iff, (compareEntries_le_iff sa a b).mpr h]
    · simp [decide_eq_true_iff, (compareEntries_le_iff sa b a).mpr h]
  have hpair : List.Pairwise (specLE sa) (sortEntries entries sa) := by
    have hp := @List.sorted_mergeSort LeaseReserveEntry
      (fun a b => decide (compareEntries sa a b ≤ 0))
      htrans htotal entries
    refine hp.imp ?_
    intro a b h
    rw [decide_eq_true_iff, compareEntries_le_iff] at h
    exact h
  refine ⟨List.mergeSort_perm entries _, hpair, specLE_total sa, ?_⟩
  refine hpair.imp ?_
  intro a b h hb
  rcases h with h | ⟨heq, -⟩
  · unfold watchRank at h
    rw [hb] at h
    by_contra ha
    rw [Bool.not_eq_true] at ha
    rw [ha] at h
    simp at h
  · unfold watchRank at heq
    rw [hb] at heq
    by_contra ha
    rw [Bool.not_eq_true] at ha
    rw [ha] at heq
    simp at heq

/-! ## Claim C8: per-row unlock concurrency guard -/

/-- C8: while a submission for an entry's row key is in flight, a second
`handleUnlock` for the same key changes nothing at all — no signer
invocation, no queuing, no error — so two submits in direct succession
invoke the signer exactly once; a fresh submit records the key and
invokes the signer once; and a terminal outcome (finalized or caught
error) releases the guard for that key. -/
theorem unlockGuard_single_flight (st : UnlockState) (e : LeaseReserveEntry) :
    (getRowKey e ∈ st.unlockingRows → handleUnlockStart st e = st) ∧
    (getRowKey e ∉ st.unlockingRows →
      (handleUnlockStart st e).signerInvocations
          = st.signerInvocations ++ [getRowKey e] ∧
      getRowKey e ∈ (handleUnlockStart st e).unlockingRows) ∧
    handleUnlockStart (handleUnlockStart st e) e = handleUnlockStart st e ∧
    (st.unlockingRows.Nodup →
      getRowKey e ∉ (handleUnlockTerminal st e).unlockingRows) := by
  refine ⟨?_, ?_, ?_, ?_⟩
  · intro h
    unfold handleUnlockStart
    rw [if_pos h]
  · intro h
    unfold handleUnlockStart
    rw [if_neg h]
    exact ⟨rfl, List.mem_cons_self _ _⟩
  · by_cases h : getRowKey e ∈ st.unlockingRows
    · unfold handleUnlockStart
      rw [if_pos h, if_pos h]
    · unfold handleUnlockStart
      rw [if_neg h]
      rw [if_pos (List.mem_cons_self _ _)]
  · intro hnd
    unfold handleUnlockTerminal
    exact hnd.not_mem_erase

/-- C8 (witness): from an idle guard, one submit invokes the signer once;
an immediate second submit is a no-op; the terminal outcome releases the
guard. -/
theorem unlockGuard_witness :
    (handleUnlockStart ⟨[], []⟩
        ⟨100, 2000, "addr", 5⟩).signerInvocations
      = [getRowKey ⟨100, 2000, "addr", 5⟩] ∧
    handleUnlockStart
        (handleUnlockStart ⟨[], []⟩ ⟨100, 2000, "addr", 5⟩)
        ⟨100, 2000, "addr", 5⟩
      = handleUnlockStart ⟨[], []⟩ ⟨100, 2000, "addr", 5⟩ ∧
    getRowKey ⟨100, 2000, "addr", 5⟩ ∉
      (handleUnlockTerminal
        (handleUnlockStart ⟨[], []⟩ ⟨100, 2000, "addr", 5⟩)
        ⟨100, 2000, "addr", 5⟩).unlockingRows := by
  have h₁ := unlockGuard_single_flight ⟨[], []⟩ ⟨100, 2000, "addr", 5⟩
  have h₂ := unlockGuard_single_flight
    (handleUnlockStart ⟨[], []⟩ ⟨100, 2000, "addr", 5⟩)
    ⟨100, 2000, "addr", 5⟩
  exact ⟨by simpa using (h₁.2.1 (by simp)).1, h₁.2.2.1,
    h₂.2.2.2 (by decide)⟩

/-! ## Claim C9: para-id aliasing -/

theorem lookup_eq_none_of_ne (a : String) :
    ∀ l : List (String × ParaIdMapping),
      (∀ p ∈ l, p.1 ≠ a) → l.lookup a = none := by
  intro l
  induction l with
  | nil => intro _; rfl
  | cons hd tl ih =>
    intro h
    obtain ⟨k, v⟩ := hd
    have hne : (a == k) = false := by
      simp only [beq_eq_false_iff_ne, ne_eq]
      exact fun he => h (k, v) (List.mem_cons_self _ _) he.symm
    simp only [List.lookup, hne]
    exact ih fun p hp => h p (List.mem_cons_of_mem _ hp)

/-- C9: `formatParaId` maps each member of a swap group to the group's
shared display label (the ids joined with " / ") together with the
group's tooltip — both "2043" and "3360" yield "2043 / 3360" with the
NeuroWeb tooltip — while an identifier in no group is displayed verbatim
with no tooltip, and the swap groups are pairwise disjoint (every
identifier belongs to at most one group). -/
theorem paraId_alias_groups :
    formatParaId "2043"
        = ⟨"2043 / 3360",
           some "NeuroWeb lease swap, see https://hackmd.io/@ePxWAFa1TbKm0U5Ym3IqgQ/Bk3XiAmlC"⟩ ∧
    formatParaId "3360" = formatParaId "2043" ∧
    formatParaId "9999" = ⟨"9999", none⟩ ∧
    List.Pairwise (fun g1 g2 => ∀ i ∈ g1.ids, i ∉ g2.ids)
      PARA_ID_SWAP_GROUPS ∧
    (∀ g ∈ PARA_ID_SWAP_GROUPS, ∀ i ∈ g.ids,
      formatParaId i
        = ⟨String.intercalate " / " g.ids, some g.tooltip⟩) ∧
    (∀ pid : String, (∀ g ∈ PARA_ID_SWAP_GROUPS, pid ∉ g.ids) →
      formatParaId pid = ⟨pid, none⟩) := by
  have hkeys : ∀ p ∈ PARA_ID_MAP, ∃ g ∈ PARA_ID_SWAP_GROUPS, p.1 ∈ g.ids :=
    by decide
  refine ⟨by decide, by decide, by decide, by decide, by decide, ?_⟩
  intro pid h
  unfold formatParaId
  rw [lookup_eq_none_of_ne pid PARA_ID_MAP ?_]
  intro p hp
  obtain ⟨g, hg, hmem⟩ := hkeys p hp
  exact fun he => h g hg (he ▸ hmem)

/-- C9 (witness): an identifier in no swap group displays verbatim. -/
theorem paraId_alias_witness : formatParaId "12345" = ⟨"12345", none⟩ :=
  paraId_alias_groups.2.2.2.2.2 "12345" (by decide)

/-! ## Claim C10: raw-string duplicate check in addAccount -/

/-- C10: for a non-empty trimmed input that normalizes successfully,
`addAccount` rejects it as a duplicate exactly when the trimmed raw
string is already an element of the list; when it is not, the raw string
is prepended as a new entry — regardless of `normalizeAddress`, so a
differently-encoded representation of an already-watched account passes
the duplicate check and is added as a distinct watch entry. -/
theorem addAccount_raw_duplicate_check
    (normalizeAddress : String → Option String) (list : List String)
    (input : String) (hne : jsTrim input ≠ "")
    (hvalid : (normalizeAddress (jsTrim input)).isSome) :
    (addAccount normalizeAddress list input = AddAccountResult.duplicate
      ↔ jsTrim input ∈ list) ∧
    (jsTrim input ∉ list →
      addAccount normalizeAddress list input
        = AddAccountResult.added (jsTrim input :: list)) := by
  obtain ⟨n, hn⟩ := Option.isSome_iff_exists.mp hvalid
  constructor
  · constructor
    · intro h
      by_contra hmem
      simp only [addAccount, if_neg hne, hn, if_neg hmem] at h
      exact absurd h (by simp)
    · intro hmem
      simp only [addAccount, if_neg hne, hn, if_pos hmem]
  · intro hmem
    simp only [addAccount, if_neg hne, hn, if_neg hmem]

/-- C10 (witness): with a normalizer sending every input to the same
canonical form, the differently-encoded `"addr1"` still passes the
duplicate check against the watched `"ADDR1"` and is added as a distinct
entry. -/
theorem addAccount_raw_duplicate_witness :
    addAccount (fun _ => some "CANON") ["ADDR1"] " addr1 "
      = AddAccountResult.added ["addr1", "ADDR1"] ∧
    (fun _ : String => some "CANON") (jsTrim " addr1 ")
      = (fun _ : String => some "CANON") "ADDR1" := by
  refine ⟨?_, rfl⟩
  have h := addAccount_raw_duplicate_check (fun _ => some "CANON")
    ["ADDR1"] " addr1 " (by decide) (by decide)
  have hadd := h.2 (by decide)
  simpa using hadd

end CrowdloanRefund
